import Mathlib

/-!
A verification development for the content-planner agent core.

The Python core is embedded shallowly:

* Python strings are `List Char` (`Str`); `str.strip` / `str.lower` are
  `pyStrip` / `pyLower` over the ASCII whitespace class used by `re`'s `\s`.
* `re.findall(r"START(.*?)END", s, re.DOTALL)` is `findBlocks`: scan for the
  first occurrence of the start marker, then the first occurrence of the end
  marker after it, capture the text in between, and continue after the end
  marker (non-overlapping, lazy matching across newlines).
* `re.split(r'\n\s*\n', s)` is `reSplitBlank`: a match is a newline followed
  by the maximal whitespace run, backtracked so that the match ends at the
  last newline of that run.
* The LangGraph state channel `messages : Annotated[List[BaseMessage],
  operator.add]` means a node's returned message list is concatenated onto
  the existing history; the remaining channels are last-value channels.
  `applyUpdate` implements exactly this reducer application.
* A model call that can raise is a value of `Except Str ContentVal`; an
  uncaught Python exception is the propagation of `Except.error`.
-/

namespace ContentPlanner

/-- Python-style strings, modelled as lists of characters. -/
abbrev Str := List Char

/-- The ASCII whitespace class of Python's `\s` and `str.strip`. -/
def isPySpace (c : Char) : Bool :=
  c = ' ' || c = '\t' || c = '\n' || c = '\r' || c = '\x0b' || c = '\x0c'

/-- Python `str.strip()`: remove leading and trailing whitespace. -/
def pyStrip (s : Str) : Str :=
  ((s.dropWhile isPySpace).reverse.dropWhile isPySpace).reverse

/-- Python `str.lower()` (ASCII letters; the repository's labels are ASCII). -/
def pyLower (s : Str) : Str := s.map Char.toLower

/-- Split a string at the first occurrence of `pat`: returns the text before
the occurrence and the text after it, or `none` when `pat` does not occur. -/
def splitOnFirst (pat : Str) : Str → Option (Str × Str)
  | [] => if pat = [] then some ([], []) else none
  | c :: rest =>
    if pat.isPrefixOf (c :: rest) then some ([], (c :: rest).drop pat.length)
    else
      match splitOnFirst pat rest with
      | some (pre, post) => some (c :: pre, post)
      | none => none

theorem splitOnFirst_post_le (pat : Str) :
    ∀ s pre post, splitOnFirst pat s = some (pre, post) → post.length ≤ s.length := by
  intro s
  induction s with
  | nil =>
    intro pre post h
    by_cases hp : pat = [] <;> simp [splitOnFirst, hp] at h
    simp [h.2.symm]
  | cons c rest ih =>
    intro pre post h
    by_cases hpre : pat.isPrefixOf (c :: rest)
    · simp [splitOnFirst, hpre] at h
      rw [← h.2]
      simp
    · simp only [splitOnFirst, hpre, if_false] at h
      cases hrec : splitOnFirst pat rest with
      | none => rw [hrec] at h; exact absurd h (by simp)
      | some pr =>
        rw [hrec] at h
        simp at h
        have := ih pr.1 pr.2 (by rw [hrec])
        rw [← h.2]
        simpa using Nat.le_succ_of_le this

theorem splitOnFirst_post_lt (pat : Str) (hp : pat ≠ []) :
    ∀ s pre post, splitOnFirst pat s = some (pre, post) → post.length < s.length := by
  intro s
  induction s with
  | nil =>
    intro pre post h
    simp [splitOnFirst, hp] at h
  | cons c rest ih =>
    intro pre post h
    by_cases hpre : pat.isPrefixOf (c :: rest)
    · simp [splitOnFirst, hpre] at h
      rw [← h.2]
      have h1 : 1 ≤ pat.length := by
        cases pat with
        | nil => exact absurd rfl hp
        | cons a t => simp
      simp only [List.length_drop]
      have : (c :: rest).length = rest.length + 1 := by simp
      omega
    · simp only [splitOnFirst, hpre, if_false] at h
      cases hrec : splitOnFirst pat rest with
      | none => rw [hrec] at h; exact absurd h (by simp)
      | some pr =>
        rw [hrec] at h
        simp at h
        have := splitOnFirst_post_le pat rest pr.1 pr.2 (by rw [hrec])
        rw [← h.2]
        simp only [List.length_cons]
        omega

theorem splitOnFirst_pre_lt (pat : Str) (hp : pat ≠ []) :
    ∀ s pre post, splitOnFirst pat s = some (pre, post) → pre.length < s.length := by
  intro s
  induction s with
  | nil =>
    intro pre post h
    simp [splitOnFirst, hp] at h
  | cons c rest ih =>
    intro pre post h
    by_cases hpre : pat.isPrefixOf (c :: rest)
    · simp [splitOnFirst, hpre] at h
      simp [h.1]
    · simp only [splitOnFirst, hpre, if_false] at h
      cases hrec : splitOnFirst pat rest with
      | none => rw [hrec] at h; exact absurd h (by simp)
      | some pr =>
        rw [hrec] at h
        simp at h
        have := ih pr.1 pr.2 (by rw [hrec])
        rw [← h.1]
        simp only [List.length_cons]
        omega

/-- Fuelled scanner behind `re.findall(r"START(.*?)END", s, re.DOTALL)`:
take the first start marker, then the first end marker after it, capture the
body, continue after the end marker. -/
def findBlocksF (startM endM : Str) : Nat → Str → List Str
  | 0, _ => []
  | Nat.succ n, s =>
    match splitOnFirst startM s with
    | none => []
    | some (_, rest) =>
      match splitOnFirst endM rest with
      | none => []
      | some (body, rest2) => body :: findBlocksF startM endM n rest2

/-- All captured bodies of non-overlapping `startM … endM` regions of `s`. -/
def findBlocks (startM endM s : Str) : List Str :=
  findBlocksF startM endM s.length s

/-- The fuel `s.length` used by `findBlocks` is enough: any fuel of at least
the string length computes the same match list. -/
theorem findBlocksF_adequate (startM endM : Str) (hs : startM ≠ []) :
    ∀ (n m : Nat) (s : Str), s.length ≤ n → s.length ≤ m →
      findBlocksF startM endM n s = findBlocksF startM endM m s := by
  intro n
  induction n with
  | zero =>
    intro m s hn _
    have : s = [] := List.eq_nil_of_length_eq_zero (Nat.le_zero.mp hn)
    subst this
    cases m with
    | zero => rfl
    | succ m' => simp [findBlocksF, splitOnFirst, hs]
  | succ n' ih =>
    intro m s hn hm
    cases m with
    | zero =>
      have : s = [] := List.eq_nil_of_length_eq_zero (Nat.le_zero.mp hm)
      subst this
      simp [findBlocksF, splitOnFirst, hs]
    | succ m' =>
      show (match splitOnFirst startM s with
        | none => []
        | some (_, rest) =>
          match splitOnFirst endM rest with
          | none => []
          | some (body, rest2) => body :: findBlocksF startM endM n' rest2) =
        (match splitOnFirst startM s with
        | none => []
        | some (_, rest) =>
          match splitOnFirst endM rest with
          | none => []
          | some (body, rest2) => body :: findBlocksF startM endM m' rest2)
      cases h1 : splitOnFirst startM s with
      | none => rfl
      | some pr =>
        cases h2 : splitOnFirst endM pr.2 with
        | none => simp only [h2]
        | some pr2 =>
          simp only [h2]
          have hrest : pr.2.length < s.length :=
            splitOnFirst_post_lt startM hs s pr.1 pr.2 (by rw [h1])
          have hrest2 : pr2.2.length ≤ pr.2.length :=
            splitOnFirst_post_le endM pr.2 pr2.1 pr2.2 (by rw [h2])
          have hx : pr2.2.length ≤ n' := by omega
          have hy : pr2.2.length ≤ m' := by omega
          rw [ih m' pr2.2 hx hy]

/-- One attempted match of `\n\s*\n` at the head of the string: a newline,
then the maximal whitespace run backtracked to its last newline. Returns the
remainder after the matched separator, or `none` when no match starts here. -/
def matchBlank : Str → Option Str
  | [] => none
  | c :: t =>
    if c = '\n' then
      match splitOnFirst ['\n'] ((t.takeWhile isPySpace).reverse) with
      | some (pre, _) => some (pre.reverse ++ t.dropWhile isPySpace)
      | none => none
    else none

theorem matchBlank_length_lt :
    ∀ s r, matchBlank s = some r → r.length < s.length := by
  intro s r h
  cases s with
  | nil => simp [matchBlank] at h
  | cons c t =>
    simp only [matchBlank] at h
    by_cases hc : c = '\n'
    · rw [if_pos hc] at h
      cases hsp : splitOnFirst ['\n'] ((t.takeWhile isPySpace).reverse) with
      | none => rw [hsp] at h; exact absurd h (by simp)
      | some pr =>
        rw [hsp] at h
        simp at h
        have hpre : pr.1.length < (t.takeWhile isPySpace).reverse.length :=
          splitOnFirst_pre_lt ['\n'] (by simp) _ pr.1 pr.2 (by rw [hsp])
        have hsum : (t.takeWhile isPySpace).length + (t.dropWhile isPySpace).length
            = t.length := by
          have := List.takeWhile_append_dropWhile (p := isPySpace) (l := t)
          rw [← List.length_append, this]
        rw [← h]
        simp only [List.length_append, List.length_reverse] at hpre ⊢
        simp only [List.length_cons]
        omega
    · rw [if_neg hc] at h
      exact absurd h (by simp)

/-- Split a string at the first `\n\s*\n` separator match: returns the text
before the separator and the remainder after it. -/
def splitFirstBlank : Str → Option (Str × Str)
  | [] => none
  | c :: t =>
    match matchBlank (c :: t) with
    | some rest => some ([], rest)
    | none =>
      match splitFirstBlank t with
      | some (pre, rest) => some (c :: pre, rest)
      | none => none

theorem splitFirstBlank_post_lt :
    ∀ s pre rest, splitFirstBlank s = some (pre, rest) → rest.length < s.length := by
  intro s
  induction s with
  | nil => intro pre rest h; simp [splitFirstBlank] at h
  | cons c t ih =>
    intro pre rest h
    simp only [splitFirstBlank] at h
    cases hm : matchBlank (c :: t) with
    | some r =>
      rw [hm] at h
      simp at h
      have := matchBlank_length_lt (c :: t) r hm
      rw [← h.2]
      exact this
    | none =>
      rw [hm] at h
      cases hrec : splitFirstBlank t with
      | none => rw [hrec] at h; exact absurd h (by simp)
      | some pr =>
        rw [hrec] at h
        simp at h
        have := ih pr.1 pr.2 (by rw [hrec])
        rw [← h.2]
        simp only [List.length_cons]
        omega

/-- Fuelled scanner behind `re.split(r'\n\s*\n', s)`. -/
def reSplitF : Nat → Str → List Str
  | 0, s => [s]
  | Nat.succ n, s =>
    match splitFirstBlank s with
    | none => [s]
    | some (pre, rest) => pre :: reSplitF n rest

/-- `re.split(r'\n\s*\n', s)`: the sections of `s` between blank-line
separators (empty sections included, as in Python). -/
def reSplitBlank (s : Str) : List Str := reSplitF s.length s

/-- The fuel `s.length` used by `reSplitBlank` is enough. -/
theorem reSplitF_adequate :
    ∀ (n m : Nat) (s : Str), s.length ≤ n → s.length ≤ m →
      reSplitF n s = reSplitF m s := by
  intro n
  induction n with
  | zero =>
    intro m s hn _
    have : s = [] := List.eq_nil_of_length_eq_zero (Nat.le_zero.mp hn)
    subst this
    cases m with
    | zero => rfl
    | succ m' => simp [reSplitF, splitFirstBlank]
  | succ n' ih =>
    intro m s hn hm
    cases m with
    | zero =>
      have : s = [] := List.eq_nil_of_length_eq_zero (Nat.le_zero.mp hm)
      subst this
      simp [reSplitF, splitFirstBlank]
    | succ m' =>
      show (match splitFirstBlank s with
        | none => [s]
        | some (pre, rest) => pre :: reSplitF n' rest) =
        (match splitFirstBlank s with
        | none => [s]
        | some (pre, rest) => pre :: reSplitF m' rest)
      cases h1 : splitFirstBlank s with
      | none => rfl
      | some pr =>
        simp only [h1]
        have hlt : pr.2.length < s.length :=
          splitFirstBlank_post_lt s pr.1 pr.2 (by rw [h1])
        rw [ih m' pr.2 (by omega) (by omega)]

/-- Literal start marker of a guideline update region. -/
def GUIDELINE_START : Str := "GUIDELINE UPDATE:".data

/-- Literal end marker of a guideline update region. -/
def GUIDELINE_END : Str := "END GUIDELINE UPDATE".data

/-- The double-newline joiner. -/
def NL2 : Str := "\n\n".data

/-- Embedding of `extract_guideline_updates` from
`content_planner_agent/utils/extractors.py`. -/
def extract_guideline_updates (response current_draft : Str) : Str :=
  match (findBlocks GUIDELINE_START GUIDELINE_END response).getLast? with
  | some latest =>
    let latest_update := pyStrip latest
    if current_draft ≠ [] then current_draft ++ NL2 ++ latest_update
    else latest_update
  | none =>
    if current_draft = [] then
      let sections := reSplitBlank response
      let potential_guideline :=
        List.intercalate NL2 (sections.filter (fun s => 50 < (pyStrip s).length))
      if potential_guideline ≠ [] then potential_guideline else current_draft
    else current_draft

example :
    extract_guideline_updates
      "xGUIDELINE UPDATE: A END GUIDELINE UPDATEyGUIDELINE UPDATE: B END GUIDELINE UPDATEz".data
      [] = "B".data := by decide

example :
    extract_guideline_updates
      "GUIDELINE UPDATE: Y END GUIDELINE UPDATE".data "X".data = "X\n\nY".data := by decide

example : extract_guideline_updates "no markers here".data "D".data = "D".data := by decide

/-- Literal start marker of a post-example region. -/
def POST_START : Str := "POST EXAMPLE:".data

/-- Literal end marker of a post-example region. -/
def POST_END : Str := "END POST EXAMPLE".data

/-- Embedding of `extract_post_examples` from
`content_planner_agent/nodes/post_examples_node.py`. The pattern
`POST EXAMPLE:\s*(.*?)\s*END POST EXAMPLE` captures the text between the
markers with surrounding whitespace removed (the leading `\s*` is greedy and
the trailing one absorbs the maximal whitespace run before the end marker),
so each captured body is the stripped between-marker text. -/
def extract_post_examples (content : Str) : List Str :=
  (findBlocks POST_START POST_END content).map pyStrip

/-- Message author role: `HumanMessage` or `AIMessage`. -/
inductive Role
  | human
  | ai
deriving DecidableEq, Repr

/-- A chat message. -/
structure Msg where
  role : Role
  content : Str
deriving DecidableEq, Repr

/-- A `HumanMessage`. -/
def humanMsg (s : Str) : Msg := { role := Role.human, content := s }

/-- An `AIMessage`. -/
def aiMsg (s : Str) : Msg := { role := Role.ai, content := s }

/-- The static `APP_INFO` payload is opaque for this development: the
`app_context` channel is either the initial empty dict or that payload. -/
inductive AppContext
  | emptyCtx
  | appInfo
deriving DecidableEq, Repr

/-- Embedding of `ContentPlannerState` from
`content_planner_agent/state/state.py`. The same record also serves as a
node's returned channel update. -/
structure AgentState where
  messages : List Msg
  guideline_draft : Str
  current_task : Str
  posts_examples : List Str
  app_context : AppContext
deriving DecidableEq, Repr

/-- LangGraph channel-update application: `messages` is declared
`Annotated[List[BaseMessage], operator.add]`, so a node's returned message
list is concatenated onto the existing one; the other channels are
last-value channels and are overwritten. -/
def applyUpdate (st upd : AgentState) : AgentState :=
  { messages := st.messages ++ upd.messages
    guideline_draft := upd.guideline_draft
    current_task := upd.current_task
    posts_examples := upd.posts_examples
    app_context := upd.app_context }

/-- The `.content` of a model response: either a plain string or a list of
sub-messages (of which the code uses the first element's content). -/
inductive ContentVal
  | str (s : Str)
  | list (items : List Str)
deriving DecidableEq, Repr

/-- The handler-side normalization of a response content
(`content_str` in the nodes): a string is used as is, a non-empty list
contributes its first element, an empty list falls back to the node's
default sentence. -/
def contentToStr (c : ContentVal) (dflt : Str) : Str :=
  match c with
  | .str s => s
  | .list [] => dflt
  | .list (x :: _) => x

/-- The router-side normalization of the classifier response
(`intent` in `route_message`): strip then lower-case; an empty list response
is replaced by the literal `"guidelines"`. -/
def normalizeIntent (c : ContentVal) : Str :=
  match c with
  | .str s => pyLower (pyStrip s)
  | .list [] => "guidelines".data
  | .list (x :: _) => pyLower (pyStrip x)

/-- Python's substring test `pat in hay`: `pat` occurs contiguously in `hay`. -/
def hasSub (pat : Str) : Str → Bool
  | [] => pat.isEmpty
  | c :: rest => pat.isPrefixOf (c :: rest) || hasSub pat rest

/-- The label-matching cascade of `route_message`: substring containment
against the three labels in priority order, defaulting to `guidelines`. -/
def resolveTask (intent : Str) : Str :=
  if hasSub "guidelines".data intent then "guidelines".data
  else if hasSub "app_info".data intent then "app_info".data
  else if hasSub "post_examples".data intent then "post_examples".data
  else "guidelines".data

/-- Embedding of `route_message` from
`content_planner_agent/nodes/router_node.py`. The classifier model call is
the `routerLLM` argument; `Except.error` is an uncaught exception (the code
has no `try` around `router_llm.invoke`). The returned state is the node's
channel update, to which LangGraph then applies `applyUpdate`. Reading
`state["messages"][-1]` of an empty history raises `IndexError`. -/
def route_message (routerLLM : Except Str ContentVal) (st : AgentState) :
    Except Str AgentState :=
  match st.messages.getLast? with
  | none => Except.error "IndexError".data
  | some last =>
    if last.role = Role.ai then Except.ok st
    else
      match routerLLM with
      | .error e => .error e
      | .ok c =>
        let intent := normalizeIntent c
        Except.ok
          { messages := st.messages
            guideline_draft := st.guideline_draft
            current_task := resolveTask intent
            posts_examples := st.posts_examples
            app_context := st.app_context }

/-- Embedding of the conditional-edge `router_function` from
`content_planner_agent/agent.py`: `none` is the `END` branch. -/
def router_function (st : AgentState) : Option Str :=
  let taskBranch : Option Str :=
    if st.current_task = "guidelines".data ∨ st.current_task = "app_info".data ∨
        st.current_task = "post_examples".data then some st.current_task
    else some "guidelines".data
  match st.messages.getLast? with
  | some m => if m.role = Role.ai then none else taskBranch
  | none => taskBranch

/-- The backwards `for i in range(len(messages)-1, -1, -1)` loop of the
guidelines and post-examples nodes, on the reversed list: replace the first
human message with `ctx ++` its content and stop. -/
def augmentFirstHumanRev (ctx : Str) : List Msg → List Msg
  | [] => []
  | m :: rest =>
    if m.role = Role.human then { role := Role.human, content := ctx ++ m.content } :: rest
    else m :: augmentFirstHumanRev ctx rest

/-- Replace the last human message of `msgs` with `ctx ++` its content
(no change when there is no human message). -/
def augmentLastHuman (ctx : Str) (msgs : List Msg) : List Msg :=
  (augmentFirstHumanRev ctx msgs.reverse).reverse

/-- The draft context prepended by the guidelines node. -/
def guidelinesContext (draft : Str) : Str :=
  "Current guideline draft:\n".data ++ draft ++ "\n\n".data

/-- The message sequence the guidelines node sends to its model: the last
human message is augmented with the draft context, but only when the draft
is non-empty (`if current_draft:` in the code). -/
def guidelinesModelMessages (st : AgentState) : List Msg :=
  if st.guideline_draft ≠ [] then
    augmentLastHuman (guidelinesContext st.guideline_draft) st.messages
  else st.messages

/-- Fallback reply of the guidelines node for an empty-list model content. -/
def GUIDELINES_DEFAULT : Str := "Let me help you create effective content guidelines.".data

/-- Embedding of `process_guidelines` from
`content_planner_agent/nodes/guidelines_node.py`. The model collaborator is
the `llm` argument, applied to exactly the messages the code sends. -/
def process_guidelines (llm : List Msg → Except Str ContentVal) (st : AgentState) :
    Except Str AgentState :=
  match st.messages.getLast? with
  | none => Except.error "IndexError".data
  | some _ =>
    match llm (guidelinesModelMessages st) with
    | .error e => .error e
    | .ok c =>
      let content_str := contentToStr c GUIDELINES_DEFAULT
      let updated_draft := extract_guideline_updates content_str st.guideline_draft
      Except.ok
        { messages := [{ role := Role.ai, content := content_str }]
          guideline_draft := updated_draft
          current_task := "guidelines".data
          posts_examples := st.posts_examples
          app_context := st.app_context }

/-- Fallback reply of the app-info node for an empty-list model content. -/
def APPINFO_DEFAULT : Str :=
  "I'm sorry, I don't have specific information about this app.".data

/-- `json.dumps(APP_INFO, indent=2)`: static text, opaque here. -/
def APP_INFO_JSON : Str := "<APP_INFO JSON>".data

/-- The augmented question the app-info node sends in place of the last
message. -/
def appInfoPrompt (question : Str) : Str :=
  "\nQuestion: ".data ++ question ++
    "\n\nApplication Information:\n".data ++ APP_INFO_JSON ++
    "\n\nPlease answer the question based on the provided application information.\n".data

/-- Embedding of `process_app_info` from
`content_planner_agent/nodes/app_info_node.py`. -/
def process_app_info (llm : List Msg → Except Str ContentVal) (st : AgentState) :
    Except Str AgentState :=
  match st.messages.getLast? with
  | none => Except.error "IndexError".data
  | some last =>
    let msgs := st.messages.dropLast ++
      [{ role := Role.human, content := appInfoPrompt last.content }]
    match llm msgs with
    | .error e => .error e
    | .ok c =>
      Except.ok
        { messages := [{ role := Role.ai, content := contentToStr c APPINFO_DEFAULT }]
          guideline_draft := st.guideline_draft
          current_task := "app_info".data
          posts_examples := st.posts_examples
          app_context := AppContext.appInfo }

/-- The fixed refusal reply of the post-examples node for an empty draft. -/
def POSTEX_REFUSAL : Str :=
  "I don't have any content guidelines to base examples on. Let's create some guidelines first.".data

/-- Fallback reply of the post-examples node for an empty-list model content. -/
def POSTEX_DEFAULT : Str := "Here are some example posts based on your guidelines.".data

/-- The guideline context prepended by the post-examples node. -/
def postExamplesContext (draft : Str) : Str :=
  "Generate post examples based on these content guidelines:\n".data ++ draft ++ "\n\n".data

/-- The `for example in new_examples: if example not in all_examples: append`
loop: append each element of the second list that is not yet present. -/
def dedupAppend (acc : List Str) : List Str → List Str
  | [] => acc
  | e :: rest =>
    if e ∈ acc then dedupAppend acc rest else dedupAppend (acc ++ [e]) rest

/-- Embedding of `process_post_examples` from
`content_planner_agent/nodes/post_examples_node.py`. -/
def process_post_examples (llm : List Msg → Except Str ContentVal) (st : AgentState) :
    Except Str AgentState :=
  match st.messages.getLast? with
  | none => Except.error "IndexError".data
  | some _ =>
    if st.guideline_draft = [] then
      Except.ok
        { messages := [{ role := Role.ai, content := POSTEX_REFUSAL }]
          guideline_draft := []
          current_task := "post_examples".data
          posts_examples := st.posts_examples
          app_context := st.app_context }
    else
      let msgs := augmentLastHuman (postExamplesContext st.guideline_draft) st.messages
      match llm msgs with
      | .error e => .error e
      | .ok c =>
        let content_str := contentToStr c POSTEX_DEFAULT
        let new_examples := extract_post_examples content_str
        let all_examples := dedupAppend st.posts_examples new_examples
        Except.ok
          { messages := [{ role := Role.ai, content := content_str }]
            guideline_draft := st.guideline_draft
            current_task := "post_examples".data
            posts_examples := all_examples
            app_context := st.app_context }

/-- Dispatch of the conditional-edge target to its node. `router_function`
only ever yields one of the three labels. -/
def runHandler (t : Str) (llm : List Msg → Except Str ContentVal) (st : AgentState) :
    Except Str AgentState :=
  if t = "guidelines".data then process_guidelines llm st
  else if t = "app_info".data then process_app_info llm st
  else process_post_examples llm st

/-- One LangGraph execution of the compiled graph: router node, conditional
edge, dispatched handler node, and back to the router, with channel updates
applied by `applyUpdate` after every node. The fuel models the recursion
limit (default 25); exhausting it raises `GraphRecursionError`. -/
def graphLoop (routerLLM : Except Str ContentVal)
    (llm : List Msg → Except Str ContentVal) :
    Nat → AgentState → Except Str AgentState
  | 0, _ => Except.error "GraphRecursionError".data
  | Nat.succ n, st =>
    match route_message routerLLM st with
    | .error e => .error e
    | .ok upd =>
      let st1 := applyUpdate st upd
      match router_function st1 with
      | none => Except.ok st1
      | some t =>
        match runHandler t llm st1 with
        | .error e => .error e
        | .ok upd2 => graphLoop routerLLM llm n (applyUpdate st1 upd2)

/-- The serializable slice stored by `DatabaseManager.save_session_state`
(the message history is not part of it). -/
structure SessionData where
  guideline_draft : Str
  current_task : Str
  posts_examples : List Str
  app_context : AppContext
deriving DecidableEq, Repr

/-- The in-memory session store, keyed by session id; assignment shadows. -/
abbrev DB := List (Str × SessionData)

/-- `db.get_session_state(sid)` with the defaults `process_message` applies
to an absent session. -/
def sessionOf (db : DB) (sid : Str) : SessionData :=
  match List.lookup sid db with
  | some sd => sd
  | none =>
    { guideline_draft := []
      current_task := "guidelines".data
      posts_examples := []
      app_context := AppContext.emptyCtx }

/-- `db.save_session_state(sid, result)`: store the serializable slice. -/
def saveSession (db : DB) (sid : Str) (sd : SessionData) : DB := (sid, sd) :: db

/-- The apology produced when `graph.invoke` raises. -/
def apologyReply (e : Str) : Str := "I'm sorry, I encountered an error: ".data ++ e

/-- Embedding of the boundary-visible behavior of
`ContentPlannerAgent.process_message` (non-debug path) from
`content_planner_agent/agent.py`: the returned reply and the
`DatabaseManager` store. `chk` is the message history held by the LangGraph
checkpointer for this thread; the input state's message list is add-reduced
onto it while the other channels are overwritten from the database-backed
fields. A graph exception is caught and answered with an apology, leaving
the database untouched; otherwise the result is saved and the last
message's content returned (an `IndexError` on an empty result history
would escape uncaught). This function does NOT model what the `MemorySaver`
checkpointer itself persists during the turn: the checkpointer commits the
input application and every completed super-step even when a later node
raises — that side of the boundary is modelled by `graphInvoke` and
`process_message_ckpt` below. -/
def process_message (routerLLM : Except Str ContentVal)
    (llm : List Msg → Except Str ContentVal)
    (db : DB) (chk : List Msg) (sid message : Str) : Except Str (DB × Str) :=
  let sd := sessionOf db sid
  let input : AgentState :=
    { messages := chk ++ [{ role := Role.human, content := message }]
      guideline_draft := sd.guideline_draft
      current_task := sd.current_task
      posts_examples := sd.posts_examples
      app_context := sd.app_context }
  match graphLoop routerLLM llm 25 input with
  | .error e => Except.ok (db, apologyReply e)
  | .ok result =>
    let db2 := saveSession db sid
      { guideline_draft := result.guideline_draft
        current_task := result.current_task
        posts_examples := result.posts_examples
        app_context := result.app_context }
    match result.messages.getLast? with
    | some m => Except.ok (db2, m.content)
    | none => Except.error "IndexError".data

/-!
## Shared concrete states and collaborators used by witnesses
-/

/-- A lone user message. -/
def hMsgHi : Msg := { role := Role.human, content := "hi".data }

/-- A fresh-session state carrying one user message and all defaults. -/
def stHi : AgentState :=
  { messages := [hMsgHi]
    guideline_draft := []
    current_task := "guidelines".data
    posts_examples := []
    app_context := AppContext.emptyCtx }

/-!
## Helper lemmas
-/

/-- `extract_guideline_updates` never drops the current draft: the draft is
a prefix of the result in every branch. -/
theorem extract_preserves_draft (response current_draft : Str) :
    current_draft <+: extract_guideline_updates response current_draft := by
  unfold extract_guideline_updates
  cases h : (findBlocks GUIDELINE_START GUIDELINE_END response).getLast? with
  | some latest =>
    by_cases hd : current_draft = []
    · subst hd
      simp only [ne_eq, not_true_eq_false, if_false]
      exact ⟨pyStrip latest, rfl⟩
    · simp only [ne_eq, hd, not_false_eq_true, if_true]
      exact ⟨NL2 ++ pyStrip latest, (List.append_assoc _ _ _).symm⟩
  | none =>
    by_cases hd : current_draft = []
    · subst hd
      simp only [if_true]
      exact ⟨_, rfl⟩
    · simp only [hd, if_false]
      exact ⟨[], by simp⟩

/-- `dedupAppend` keeps the accumulator as a prefix. -/
theorem dedupAppend_keeps_acc (l : List Str) :
    ∀ acc : List Str, acc <+: dedupAppend acc l := by
  induction l with
  | nil => intro acc; exact ⟨[], by simp [dedupAppend]⟩
  | cons e rest ih =>
    intro acc
    unfold dedupAppend
    by_cases he : e ∈ acc
    · simp only [he, if_true]
      exact ih acc
    · simp only [he, if_false]
      exact List.IsPrefix.trans ⟨[e], rfl⟩ (ih (acc ++ [e]))

/-- `dedupAppend` preserves duplicate-freedom of the accumulator. -/
theorem dedupAppend_nodup (l : List Str) :
    ∀ acc : List Str, acc.Nodup → (dedupAppend acc l).Nodup := by
  induction l with
  | nil => intro acc h; exact h
  | cons e rest ih =>
    intro acc h
    unfold dedupAppend
    by_cases he : e ∈ acc
    · simp only [he, if_true]
      exact ih acc h
    · simp only [he, if_false]
      exact ih (acc ++ [e]) (by simp [List.nodup_append, h, he])

/-!
## The claims
-/

/-- C1: for every `responseText` containing at least one region delimited by
`GUIDELINE UPDATE:` and `END GUIDELINE UPDATE` (matched across line breaks,
non-overlapping), `extract` takes the last such region, trims its
surrounding whitespace, and returns `currentDraft ++ "\n\n" ++ block` when
the draft is non-empty and the trimmed block alone when it is empty. -/
theorem extract_latest_wins_append (response current_draft latest : Str)
    (h : (findBlocks GUIDELINE_START GUIDELINE_END response).getLast? = some latest) :
    extract_guideline_updates response current_draft =
      if current_draft = [] then pyStrip latest
      else current_draft ++ NL2 ++ pyStrip latest := by
  unfold extract_guideline_updates
  rw [h]
  by_cases hd : current_draft = [] <;> simp [hd]

/-- Witness for C1 at a concrete two-block response and a non-empty draft. -/
theorem extract_latest_wins_append_witness :
    extract_guideline_updates
      "GUIDELINE UPDATE: A END GUIDELINE UPDATE GUIDELINE UPDATE: B END GUIDELINE UPDATE".data
      "X".data = "X\n\nB".data := by
  rw [extract_latest_wins_append
    "GUIDELINE UPDATE: A END GUIDELINE UPDATE GUIDELINE UPDATE: B END GUIDELINE UPDATE".data
    "X".data " B ".data (by decide)]
  decide

/-- `hasSub` is exactly substring containment. -/
theorem hasSub_iff_occurs (pat : Str) : ∀ s : Str, hasSub pat s = true ↔ pat <:+: s := by
  intro s
  induction s with
  | nil =>
    simp only [hasSub]
    rw [List.isEmpty_iff, List.infix_nil]
  | cons c rest ih =>
    simp only [hasSub, Bool.or_eq_true]
    rw [List.infix_cons_iff, ih]
    constructor
    · rintro (h | h)
      · exact Or.inl (( List.isPrefixOf_iff_prefix).mp h)
      · exact Or.inr h
    · rintro (h | h)
      · exact Or.inl (( List.isPrefixOf_iff_prefix).mpr h)
      · exact Or.inr h

/-- A whitespace-free pattern occurs in `w ++ m` with `w` all-whitespace
exactly when it occurs in `m`. -/
theorem infix_ws_left (pat : Str) (hp : pat ≠ []) (hw : ∀ c ∈ pat, isPySpace c = false) :
    ∀ (w m : Str), (∀ c ∈ w, isPySpace c = true) → ((pat <:+: w ++ m) ↔ pat <:+: m) := by
  intro w
  induction w with
  | nil => intro m _; simp
  | cons a t ih =>
    intro m hws
    constructor
    · intro h
      rcases List.infix_cons_iff.mp (by simpa using h) with hpre | hinf
      · cases pat with
        | nil => exact absurd rfl hp
        | cons p ps =>
          rcases hpre with ⟨tl, htl⟩
          have hpa : p = a := by
            have := congrArg List.head? htl
            simpa using this
          have h1 : isPySpace p = false := hw p (by simp)
          have h2 : isPySpace a = true := hws a (by simp)
          rw [hpa] at h1
          rw [h1] at h2
          exact absurd h2 (by simp)
      · exact (ih m (fun c hc => hws c (by simp [hc]))).mp hinf
    · intro h
      rcases h with ⟨s, t2, hst⟩
      exact ⟨(a :: t) ++ s, t2, by rw [← hst]; simp⟩

/-- The mirrored form of `infix_ws_left` for a trailing whitespace run. -/
theorem infix_ws_right (pat : Str) (hp : pat ≠ []) (hw : ∀ c ∈ pat, isPySpace c = false)
    (m w : Str) (hws : ∀ c ∈ w, isPySpace c = true) :
    (pat <:+: m ++ w) ↔ pat <:+: m := by
  have hrp : pat.reverse ≠ [] := by
    intro hcon
    exact hp (by simpa using congrArg List.reverse hcon)
  have hwr : ∀ c ∈ pat.reverse, isPySpace c = false :=
    fun c hc => hw c (List.mem_reverse.mp hc)
  constructor
  · intro h
    have h2 : pat.reverse <:+: w.reverse ++ m.reverse := by
      have h3 : pat.reverse <:+: (m ++ w).reverse := ( List.reverse_infix).mpr h
      rwa [List.reverse_append] at h3
    have h4 : pat.reverse <:+: m.reverse :=
      (infix_ws_left pat.reverse hrp hwr w.reverse m.reverse
        (fun c hc => hws c (List.mem_reverse.mp hc))).mp h2
    exact ( List.reverse_infix).mp h4
  · intro h
    rcases h with ⟨s, t2, hst⟩
    exact ⟨s, t2 ++ w, by rw [← hst]; simp⟩

/-- `pyStrip` splits a string into a leading whitespace run, the stripped
core, and a trailing whitespace run. -/
theorem pyStrip_decomp (s : Str) :
    ∃ w1 w2 : Str, s = w1 ++ pyStrip s ++ w2 ∧
      (∀ c ∈ w1, isPySpace c = true) ∧ (∀ c ∈ w2, isPySpace c = true) := by
  refine ⟨s.takeWhile isPySpace,
    ((s.dropWhile isPySpace).reverse.takeWhile isPySpace).reverse,
    ?_, fun c hc => List.mem_takeWhile_imp hc,
    fun c hc => List.mem_takeWhile_imp (List.mem_reverse.mp hc)⟩
  conv_lhs => rw [← List.takeWhile_append_dropWhile (p := isPySpace) (l := s)]
  unfold pyStrip
  rw [List.append_assoc]
  congr 1
  conv_lhs => rw [← List.reverse_reverse (s.dropWhile isPySpace),
    ← List.takeWhile_append_dropWhile (p := isPySpace)
      (l := (s.dropWhile isPySpace).reverse)]
  rw [List.reverse_append]

/-- `Char.toLower` maps the whitespace class to itself. -/
theorem toLower_ws (c : Char) (h : isPySpace c = true) : isPySpace c.toLower = true := by
  unfold isPySpace at h
  simp only [Bool.or_eq_true, decide_eq_true_eq] at h
  rcases h with ((((h | h) | h) | h) | h) | h <;> subst h <;> decide

/-- The classifier's normalized intent sits inside the merely lower-cased
raw output between two whitespace runs. -/
theorem normalizeIntent_decomp (raw : Str) :
    ∃ w1 w2 : Str, pyLower raw = w1 ++ normalizeIntent (ContentVal.str raw) ++ w2 ∧
      (∀ c ∈ w1, isPySpace c = true) ∧ (∀ c ∈ w2, isPySpace c = true) := by
  obtain ⟨u1, u2, heq, hu1, hu2⟩ := pyStrip_decomp raw
  refine ⟨pyLower u1, pyLower u2, ?_, ?_, ?_⟩
  · show List.map Char.toLower raw = _
    conv_lhs => rw [heq]
    simp [pyLower, normalizeIntent]
  · intro c hc
    rcases List.mem_map.mp hc with ⟨c', hc', rfl⟩
    exact toLower_ws c' (hu1 c' hc')
  · intro c hc
    rcases List.mem_map.mp hc with ⟨c', hc', rfl⟩
    exact toLower_ws c' (hu2 c' hc')

/-- The code's extra `strip` before lowering cannot change containment of a
non-empty whitespace-free label: testing on the normalized intent equals
testing on the lower-cased raw output. -/
theorem hasSub_label_normalize (pat raw : Str) (hp : pat ≠ [])
    (hw : ∀ c ∈ pat, isPySpace c = false) :
    hasSub pat (normalizeIntent (ContentVal.str raw)) = hasSub pat (pyLower raw) := by
  obtain ⟨w1, w2, heq, hw1, hw2⟩ := normalizeIntent_decomp raw
  apply Bool.eq_iff_iff.mpr
  rw [hasSub_iff_occurs, hasSub_iff_occurs, heq, List.append_assoc]
  rw [infix_ws_left pat hp hw w1 _ hw1]
  exact (infix_ws_right pat hp hw _ w2 hw2).symm

/-- C4: the classifier lower-cases the raw model output and tests substring
containment against the three labels in the priority order guidelines,
app_info, post_examples; the first match wins, and an output containing
none of the labels resolves to guidelines. The first conjunct in particular
resolves an output containing both `guidelines` and `app_info` to
`guidelines`. (The code also strips surrounding whitespace first, which by
`hasSub_label_normalize` cannot change any label containment.) -/
theorem classifier_priority_and_default (raw : Str) :
    (hasSub "guidelines".data (pyLower raw) = true →
      resolveTask (normalizeIntent (ContentVal.str raw)) = "guidelines".data) ∧
    (hasSub "guidelines".data (pyLower raw) = false →
      hasSub "app_info".data (pyLower raw) = true →
      resolveTask (normalizeIntent (ContentVal.str raw)) = "app_info".data) ∧
    (hasSub "guidelines".data (pyLower raw) = false →
      hasSub "app_info".data (pyLower raw) = false →
      hasSub "post_examples".data (pyLower raw) = true →
      resolveTask (normalizeIntent (ContentVal.str raw)) = "post_examples".data) ∧
    (hasSub "guidelines".data (pyLower raw) = false →
      hasSub "app_info".data (pyLower raw) = false →
      hasSub "post_examples".data (pyLower raw) = false →
      resolveTask (normalizeIntent (ContentVal.str raw)) = "guidelines".data) := by
  have e1 := hasSub_label_normalize "guidelines".data raw (by decide) (by decide)
  have e2 := hasSub_label_normalize "app_info".data raw (by decide) (by decide)
  have e3 := hasSub_label_normalize "post_examples".data raw (by decide) (by decide)
  refine ⟨?_, ?_, ?_, ?_⟩
  · intro h1
    simp [resolveTask, e1, h1]
  · intro h1 h2
    simp [resolveTask, e1, e2, h1, h2]
  · intro h1 h2 h3
    simp [resolveTask, e1, e2, e3, h1, h2, h3]
  · intro h1 h2 h3
    simp [resolveTask, e1, e2, e3, h1, h2, h3]

/-- Witness for C4: an output containing both `guidelines` and `app_info`
resolves to `guidelines`. -/
theorem classifier_priority_and_default_witness :
    resolveTask (normalizeIntent (ContentVal.str "  Guidelines or app_info?  ".data)) =
      "guidelines".data :=
  (classifier_priority_and_default "  Guidelines or app_info?  ".data).1 (by decide)

/-- C5: for a response with no delimited region, `extract` returns the
draft unchanged when it is non-empty; for an empty draft it splits the
response at blank-line boundaries, keeps the sections whose stripped length
exceeds 50 characters, and joins the survivors with a double newline
(the empty string when nothing survives). -/
theorem extract_no_marker_behavior (response current_draft : Str)
    (h : findBlocks GUIDELINE_START GUIDELINE_END response = []) :
    extract_guideline_updates response current_draft =
      if current_draft = [] then
        List.intercalate NL2
          ((reSplitBlank response).filter (fun s => 50 < (pyStrip s).length))
      else current_draft := by
  unfold extract_guideline_updates
  rw [h]
  by_cases hd : current_draft = []
  · simp only [hd, if_true, List.getLast?_nil]
    by_cases hp :
        List.intercalate NL2
          ((reSplitBlank response).filter (fun s => 50 < (pyStrip s).length)) = [] <;>
      simp [hp]
  · simp [hd]

set_option maxRecDepth 40000 in
/-- Witness for C5 at a concrete marker-free response with two long
sections and one short one, against an empty draft. -/
theorem extract_no_marker_behavior_witness :
    extract_guideline_updates
      "The first section of this reply is comfortably longer than fifty characters.\n\nshort\n\nThe second long section also exceeds the fifty character threshold easily.".data
      [] =
      "The first section of this reply is comfortably longer than fifty characters.\n\nThe second long section also exceeds the fifty character threshold easily.".data := by
  rw [extract_no_marker_behavior
    "The first section of this reply is comfortably longer than fifty characters.\n\nshort\n\nThe second long section also exceeds the fifty character threshold easily.".data
    [] (by decide)]
  decide

/-- A model collaborator that answers with a fixed string. -/
def llmStub : List Msg → Except Str ContentVal :=
  fun _ => Except.ok (ContentVal.str "stub".data)

/-- A model collaborator whose call raises. -/
def llmBoom : List Msg → Except Str ContentVal :=
  fun _ => Except.error "boom".data

/-- C2 counterexample: at a concrete one-user-message state, a raised
classifier model call propagates out of `route_message` as an exception
(there is no `try` around `router_llm.invoke`), and the turn is answered by
the boundary apology that embeds the failure instead of dispatching with
the default label. -/
theorem router_error_propagates_cex :
    route_message (Except.error "boom".data) stHi = Except.error "boom".data ∧
    process_message (Except.error "boom".data) llmStub [] [] "s".data "hi".data =
      Except.ok ([], apologyReply "boom".data) :=
  ⟨rfl, rfl⟩

/-- C2 amended: unusable classifier output (an empty content list, or text
containing none of the three label substrings) is recovered locally by
falling back to the task label `guidelines`, and the turn proceeds; a
raised classifier model call, however, propagates out of the router
uncaught (it is converted to an error reply only at the process boundary,
abandoning the turn). -/
theorem router_fallback_and_error_amended (st : AgentState) (m : Msg) (e : Str)
    (hlast : st.messages.getLast? = some m) (hrole : m.role = Role.human) :
    route_message (Except.error e) st = Except.error e ∧
    route_message (Except.ok (ContentVal.list [])) st =
      Except.ok { st with current_task := "guidelines".data } ∧
    ∀ c : ContentVal,
      hasSub "guidelines".data (normalizeIntent c) = false →
      hasSub "app_info".data (normalizeIntent c) = false →
      hasSub "post_examples".data (normalizeIntent c) = false →
      route_message (Except.ok c) st =
        Except.ok { st with current_task := "guidelines".data } := by
  have hne : ¬ (m.role = Role.ai) := by rw [hrole]; decide
  refine ⟨?_, ?_, ?_⟩
  · unfold route_message
    simp only [hlast]
    rw [if_neg hne]
  · unfold route_message
    simp only [hlast]
    rw [if_neg hne]
    rfl
  · intro c h1 h2 h3
    unfold route_message
    simp only [hlast]
    rw [if_neg hne]
    simp [resolveTask, h1, h2, h3]

/-- Witness for the amended C2: a label-free classifier output resolves to
the default task, and a raised classifier call propagates. -/
theorem router_fallback_and_error_amended_witness :
    route_message (Except.error "boom".data) stHi = Except.error "boom".data ∧
    route_message (Except.ok (ContentVal.str "hello there".data)) stHi =
      Except.ok { stHi with current_task := "guidelines".data } :=
  ⟨(router_fallback_and_error_amended stHi hMsgHi "boom".data rfl rfl).1,
   (router_fallback_and_error_amended stHi hMsgHi "boom".data rfl rfl).2.2
     (ContentVal.str "hello there".data) (by decide) (by decide) (by decide)⟩

/-- C6: with an empty guideline draft the post-examples node
short-circuits: its result does not depend on the model collaborator at
all, it replies with the fixed refusal directing the user to create
guidelines first, and the examples list is unchanged. -/
theorem post_examples_short_circuit
    (llm llm' : List Msg → Except Str ContentVal) (st : AgentState) (m : Msg)
    (hlast : st.messages.getLast? = some m) (hd : st.guideline_draft = []) :
    process_post_examples llm st = process_post_examples llm' st ∧
    process_post_examples llm st = Except.ok
      { messages := [{ role := Role.ai, content := POSTEX_REFUSAL }]
        guideline_draft := []
        current_task := "post_examples".data
        posts_examples := st.posts_examples
        app_context := st.app_context } := by
  constructor <;> simp [process_post_examples, hlast, hd]

/-- Witness for C6 at a concrete fresh-session state. -/
theorem post_examples_short_circuit_witness :
    process_post_examples llmStub stHi = process_post_examples llmBoom stHi ∧
    process_post_examples llmStub stHi = Except.ok
      { messages := [{ role := Role.ai, content := POSTEX_REFUSAL }]
        guideline_draft := []
        current_task := "post_examples".data
        posts_examples := []
        app_context := AppContext.emptyCtx } :=
  post_examples_short_circuit llmStub llmBoom stHi hMsgHi rfl rfl

/-- C7: starting from a duplicate-free examples list, the post-examples
node yields a duplicate-free list extending the previous one: extracted
blocks are appended only when not already present, deduplicating both
against the existing entries and among the blocks of one reply. -/
theorem post_examples_nodup_preserved
    (llm : List Msg → Except Str ContentVal) (st r : AgentState)
    (hnd : st.posts_examples.Nodup)
    (hr : process_post_examples llm st = Except.ok r) :
    r.posts_examples.Nodup ∧ st.posts_examples <+: r.posts_examples := by
  unfold process_post_examples at hr
  cases hlast : st.messages.getLast? with
  | none => simp only [hlast] at hr; exact absurd hr (by simp)
  | some m =>
    simp only [hlast] at hr
    by_cases hd : st.guideline_draft = []
    · rw [if_pos hd] at hr
      simp only [Except.ok.injEq] at hr
      subst hr
      exact ⟨hnd, ⟨[], by simp⟩⟩
    · rw [if_neg hd] at hr
      cases hllm : llm (augmentLastHuman (postExamplesContext st.guideline_draft) st.messages) with
      | error e => simp only [hllm] at hr; exact absurd hr (by simp)
      | ok c =>
        simp only [hllm, Except.ok.injEq] at hr
        subst hr
        exact ⟨dedupAppend_nodup _ _ hnd, dedupAppend_keeps_acc _ _⟩

/-- The model reply used by the C7 witness: one reply carrying the same
post-example block twice. -/
def llmPostB : List Msg → Except Str ContentVal :=
  fun _ => Except.ok (ContentVal.str
    "POST EXAMPLE: B END POST EXAMPLE and POST EXAMPLE: B END POST EXAMPLE".data)

/-- A session state that has already stored the block `B` once. -/
def stPE2 : AgentState :=
  { messages := [hMsgHi]
    guideline_draft := "G".data
    current_task := "post_examples".data
    posts_examples := ["B".data]
    app_context := AppContext.emptyCtx }

/-- The node result for `stPE2` under `llmPostB`. -/
def rPE2 : AgentState :=
  { messages := [{ role := Role.ai, content :=
      "POST EXAMPLE: B END POST EXAMPLE and POST EXAMPLE: B END POST EXAMPLE".data }]
    guideline_draft := "G".data
    current_task := "post_examples".data
    posts_examples := ["B".data]
    app_context := AppContext.emptyCtx }

/-- Witness for C7: a second reply carrying the block `B` twice leaves
exactly one stored copy. -/
theorem post_examples_nodup_preserved_witness :
    (rPE2.posts_examples.Nodup ∧ stPE2.posts_examples <+: rPE2.posts_examples) ∧
    rPE2.posts_examples = ["B".data] :=
  ⟨post_examples_nodup_preserved llmPostB stPE2 rPE2 (by decide) rfl, rfl⟩

/-- C9: the draft never shrinks: `extract` extends the prior draft, the
guidelines handler recomputes the draft through `extract`, and the app-info
and post-examples handlers pass it through unchanged, so in every handler
the prior draft is a prefix of the resulting draft. -/
theorem draft_monotone :
    (∀ response current_draft : Str,
      current_draft <+: extract_guideline_updates response current_draft) ∧
    (∀ (llm : List Msg → Except Str ContentVal) (st r : AgentState),
      process_guidelines llm st = Except.ok r →
      st.guideline_draft <+: r.guideline_draft) ∧
    (∀ (llm : List Msg → Except Str ContentVal) (st r : AgentState),
      process_app_info llm st = Except.ok r →
      st.guideline_draft <+: r.guideline_draft) ∧
    (∀ (llm : List Msg → Except Str ContentVal) (st r : AgentState),
      process_post_examples llm st = Except.ok r →
      st.guideline_draft <+: r.guideline_draft) := by
  refine ⟨extract_preserves_draft, ?_, ?_, ?_⟩
  · intro llm st r hr
    unfold process_guidelines at hr
    cases hlast : st.messages.getLast? with
    | none => simp only [hlast] at hr; exact absurd hr (by simp)
    | some m =>
      simp only [hlast] at hr
      cases hllm : llm (guidelinesModelMessages st) with
      | error e => simp only [hllm] at hr; exact absurd hr (by simp)
      | ok c =>
        simp only [hllm, Except.ok.injEq] at hr
        subst hr
        exact extract_preserves_draft _ _
  · intro llm st r hr
    unfold process_app_info at hr
    cases hlast : st.messages.getLast? with
    | none => simp only [hlast] at hr; exact absurd hr (by simp)
    | some m =>
      simp only [hlast] at hr
      cases hllm : llm (st.messages.dropLast ++
          [{ role := Role.human, content := appInfoPrompt m.content }]) with
      | error e => simp only [hllm] at hr; exact absurd hr (by simp)
      | ok c =>
        simp only [hllm, Except.ok.injEq] at hr
        subst hr
        exact ⟨[], by simp⟩
  · intro llm st r hr
    unfold process_post_examples at hr
    cases hlast : st.messages.getLast? with
    | none => simp only [hlast] at hr; exact absurd hr (by simp)
    | some m =>
      simp only [hlast] at hr
      by_cases hd : st.guideline_draft = []
      · rw [if_pos hd] at hr
        simp only [Except.ok.injEq] at hr
        subst hr
        exact ⟨[], by simp [hd]⟩
      · rw [if_neg hd] at hr
        cases hllm : llm (augmentLastHuman (postExamplesContext st.guideline_draft)
            st.messages) with
        | error e => simp only [hllm] at hr; exact absurd hr (by simp)
        | ok c =>
          simp only [hllm, Except.ok.injEq] at hr
          subst hr
          exact ⟨[], by simp⟩

/-- The model reply used by the C9 witness: a guideline update block. -/
def llmGuide : List Msg → Except Str ContentVal :=
  fun _ => Except.ok (ContentVal.str "GUIDELINE UPDATE: New rule END GUIDELINE UPDATE".data)

/-- A session state carrying a non-empty draft. -/
def stG : AgentState :=
  { messages := [hMsgHi]
    guideline_draft := "Old".data
    current_task := "guidelines".data
    posts_examples := []
    app_context := AppContext.emptyCtx }

/-- The guidelines-node result for `stG` under `llmGuide`. -/
def rG : AgentState :=
  { messages := [{ role := Role.ai, content :=
      "GUIDELINE UPDATE: New rule END GUIDELINE UPDATE".data }]
    guideline_draft := "Old\n\nNew rule".data
    current_task := "guidelines".data
    posts_examples := []
    app_context := AppContext.emptyCtx }

/-- Witness for C9: a concrete guidelines turn grows the draft from `Old`
to `Old\n\nNew rule`, keeping the old draft as a prefix. -/
theorem draft_monotone_witness : stG.guideline_draft <+: rG.guideline_draft :=
  draft_monotone.2.1 llmGuide stG rG (by rfl)

/-- The classifier cascade always lands on one of the three task labels. -/
theorem resolveTask_mem (intent : Str) :
    resolveTask intent = "guidelines".data ∨ resolveTask intent = "app_info".data ∨
      resolveTask intent = "post_examples".data := by
  unfold resolveTask
  by_cases h1 : hasSub "guidelines".data intent = true
  · simp [h1]
  · simp only [Bool.not_eq_true] at h1
    by_cases h2 : hasSub "app_info".data intent = true
    · simp [h1, h2]
    · simp only [Bool.not_eq_true] at h2
      by_cases h3 : hasSub "post_examples".data intent = true
      · simp [h1, h2, h3]
      · simp only [Bool.not_eq_true] at h3
        simp [h1, h2, h3]

/-- The final state of one turn started from `stHi` with classifier answer
`guidelines` and handler reply `ok`: the router node's habit of returning
the full message list under the `operator.add` reducer duplicates the
history on both of its visits, so the single machine reply is stored twice
(and the user message four times). -/
def stHiResult : AgentState :=
  { messages := [hMsgHi, hMsgHi, { role := Role.ai, content := "ok".data },
                 hMsgHi, hMsgHi, { role := Role.ai, content := "ok".data }]
    guideline_draft := []
    current_task := "guidelines".data
    posts_examples := []
    app_context := AppContext.emptyCtx }

/-- C3 (code-bug evidence): a single processed user turn from the
one-user-message state `stHi` ends with TWO machine-authored messages in
the stored history, not one. The dispatch sequence itself is as claimed (one
classify, one handler, then termination on the machine tail), but
`route_message` returns the whole message list as its channel update, and
under the `operator.add` reducer each router visit re-appends the entire
history, so the handler's one reply is persisted twice. -/
theorem turn_double_append_eval :
    graphLoop (Except.ok (ContentVal.str "guidelines".data))
      (fun _ => Except.ok (ContentVal.str "ok".data)) 25 stHi = Except.ok stHiResult ∧
    (stHiResult.messages.filter (fun m => m.role == Role.ai)).length = 2 ∧
    (stHi.messages.filter (fun m => m.role == Role.ai)).length = 0 :=
  ⟨rfl, rfl, rfl⟩

/-- One graph step with a failing handler model call: the dispatched
handler's `Except.error` propagates out of the graph execution (the
post-examples short circuit is excluded by `hp`). -/
theorem graphLoop_handler_error (rc : ContentVal) (e : Str) (st : AgentState) (m : Msg)
    (n : Nat) (hlast : st.messages.getLast? = some m) (hrole : m.role = Role.human)
    (hp : resolveTask (normalizeIntent rc) = "post_examples".data →
      st.guideline_draft ≠ []) :
    graphLoop (Except.ok rc) (fun _ => Except.error e) (n + 1) st = Except.error e := by
  have hne : ¬ (m.role = Role.ai) := by rw [hrole]; decide
  have hgl2 : (st.messages ++ st.messages).getLast? = some m := by
    rw [List.getLast?_append, hlast]
    rfl
  have hroute : route_message (Except.ok rc) st = Except.ok
      { messages := st.messages
        guideline_draft := st.guideline_draft
        current_task := resolveTask (normalizeIntent rc)
        posts_examples := st.posts_examples
        app_context := st.app_context } := by
    unfold route_message
    simp only [hlast]
    rw [if_neg hne]
  simp only [graphLoop, hroute, applyUpdate]
  rcases resolveTask_mem (normalizeIntent rc) with ht | ht | ht <;> rw [ht]
  · have hrf : router_function
        { messages := st.messages ++ st.messages
          guideline_draft := st.guideline_draft
          current_task := "guidelines".data
          posts_examples := st.posts_examples
          app_context := st.app_context } = some "guidelines".data := by
      unfold router_function
      simp only [hgl2]
      rw [if_neg hne]
      simp
    simp only [hrf]
    unfold runHandler
    rw [if_pos rfl]
    unfold process_guidelines
    simp only [hgl2]
  · have hrf : router_function
        { messages := st.messages ++ st.messages
          guideline_draft := st.guideline_draft
          current_task := "app_info".data
          posts_examples := st.posts_examples
          app_context := st.app_context } = some "app_info".data := by
      unfold router_function
      simp only [hgl2]
      rw [if_neg hne]
      simp
    simp only [hrf]
    unfold runHandler
    rw [if_neg (by decide), if_pos rfl]
    unfold process_app_info
    simp only [hgl2]
  · have hd : st.guideline_draft ≠ [] := hp ht
    have hrf : router_function
        { messages := st.messages ++ st.messages
          guideline_draft := st.guideline_draft
          current_task := "post_examples".data
          posts_examples := st.posts_examples
          app_context := st.app_context } = some "post_examples".data := by
      unfold router_function
      simp only [hgl2]
      rw [if_neg hne]
      simp
    simp only [hrf]
    unfold runHandler
    rw [if_neg (by decide), if_neg (by decide)]
    unfold process_post_examples
    simp only [hgl2]
    rw [if_neg hd]

/-- The database side of a failed handler turn: `process_message` catches
the propagated exception, answers with the apology reply, and returns the
session store exactly as it was — `save_session_state` is never reached, so
draft, examples, task and context keep their persisted values (the
hypothesis excludes the post-examples empty-draft short circuit, in which
no handler model call happens at all). This covers only the
`DatabaseManager` store; the checkpointer-persisted history is treated by
`handler_failure_partial_history` below. -/
theorem handler_failure_atomic_turn (rc : ContentVal) (e : Str) (db : DB)
    (chk : List Msg) (sid message : Str)
    (hp : resolveTask (normalizeIntent rc) = "post_examples".data →
      (sessionOf db sid).guideline_draft ≠ []) :
    process_message (Except.ok rc) (fun _ => Except.error e) db chk sid message =
      Except.ok (db, apologyReply e) := by
  unfold process_message
  dsimp only
  have h25 : (25 : Nat) = 24 + 1 := rfl
  rw [h25, graphLoop_handler_error rc e _ { role := Role.human, content := message } 24
    (List.getLast?_concat _) rfl hp]

/-- Instance of `handler_failure_atomic_turn`: a failing app-info handler
call leaves an empty store untouched and yields the apology reply. -/
theorem handler_failure_atomic_turn_witness :
    process_message (Except.ok (ContentVal.str "app_info".data))
      (fun _ => Except.error "boom".data) [] [] "s".data "hi".data =
      Except.ok ([], apologyReply "boom".data) :=
  handler_failure_atomic_turn (ContentVal.str "app_info".data) "boom".data [] []
    "s".data "hi".data (by decide)

/-- Checkpoint-aware graph execution: the `MemorySaver` checkpointer
commits a checkpoint for the applied input and after every completed
super-step, and a node that raises does not roll the earlier commits back.
The first component is the last committed channel state of the thread, the
second the outcome `graph.invoke` reports. The execution is started on the
already-committed input state, so a router exception leaves exactly that
input commit (which already contains the turn's user message) in place, and
a handler exception leaves the router step's commit in place. -/
def graphInvoke (routerLLM : Except Str ContentVal)
    (llm : List Msg → Except Str ContentVal) :
    Nat → AgentState → AgentState × Except Str AgentState
  | 0, st => (st, Except.error "GraphRecursionError".data)
  | Nat.succ n, st =>
    match route_message routerLLM st with
    | .error e => (st, .error e)
    | .ok upd =>
      let st1 := applyUpdate st upd
      match router_function st1 with
      | none => (st1, Except.ok st1)
      | some t =>
        match runHandler t llm st1 with
        | .error e => (st1, .error e)
        | .ok upd2 => graphInvoke routerLLM llm n (applyUpdate st1 upd2)

/-- The outcome component of the checkpoint-aware execution agrees with the
plain `graphLoop`: the refinement only adds the committed state. -/
theorem graphInvoke_snd (routerLLM : Except Str ContentVal)
    (llm : List Msg → Except Str ContentVal) :
    ∀ (n : Nat) (st : AgentState),
      (graphInvoke routerLLM llm n st).2 = graphLoop routerLLM llm n st := by
  intro n
  induction n with
  | zero => intro st; rfl
  | succ n ih =>
    intro st
    simp only [graphInvoke, graphLoop]
    cases route_message routerLLM st with
    | error e => rfl
    | ok upd =>
      simp only
      cases router_function (applyUpdate st upd) with
      | none => rfl
      | some t =>
        simp only
        cases runHandler t llm (applyUpdate st upd) with
        | error e => rfl
        | ok upd2 =>
          simp only
          exact ih _

/-- `process_message` with the `MemorySaver` persistence made explicit: the
first component is the thread's committed message history after the turn
(what the checkpointer supplies to the next turn), the second is the
database and reply of `process_message`. The input state is committed
before the graph runs, and a failed turn keeps every commit made up to the
failing node. -/
def process_message_ckpt (routerLLM : Except Str ContentVal)
    (llm : List Msg → Except Str ContentVal)
    (db : DB) (chk : List Msg) (sid message : Str) :
    List Msg × Except Str (DB × Str) :=
  let sd := sessionOf db sid
  let input : AgentState :=
    { messages := chk ++ [humanMsg message]
      guideline_draft := sd.guideline_draft
      current_task := sd.current_task
      posts_examples := sd.posts_examples
      app_context := sd.app_context }
  match graphInvoke routerLLM llm 25 input with
  | (ck, .error e) => (ck.messages, Except.ok (db, apologyReply e))
  | (ck, .ok result) =>
    let db2 := saveSession db sid
      { guideline_draft := result.guideline_draft
        current_task := result.current_task
        posts_examples := result.posts_examples
        app_context := result.app_context }
    match result.messages.getLast? with
    | some m => (ck.messages, Except.ok (db2, m.content))
    | none => (ck.messages, Except.error "IndexError".data)

/-- One checkpoint-aware graph step with a failing handler model call: the
handler's exception propagates, and the last committed checkpoint is the
router step's — its full-message-list update already doubled onto the
history under the `operator.add` reducer. -/
theorem graphInvoke_handler_error (rc : ContentVal) (e : Str) (st : AgentState) (m : Msg)
    (n : Nat) (hlast : st.messages.getLast? = some m) (hrole : m.role = Role.human)
    (hp : resolveTask (normalizeIntent rc) = "post_examples".data →
      st.guideline_draft ≠ []) :
    graphInvoke (Except.ok rc) (fun _ => Except.error e) (n + 1) st =
      ({ messages := st.messages ++ st.messages
         guideline_draft := st.guideline_draft
         current_task := resolveTask (normalizeIntent rc)
         posts_examples := st.posts_examples
         app_context := st.app_context }, Except.error e) := by
  have hne : ¬ (m.role = Role.ai) := by rw [hrole]; decide
  have hgl2 : (st.messages ++ st.messages).getLast? = some m := by
    rw [List.getLast?_append, hlast]
    rfl
  have hroute : route_message (Except.ok rc) st = Except.ok
      { messages := st.messages
        guideline_draft := st.guideline_draft
        current_task := resolveTask (normalizeIntent rc)
        posts_examples := st.posts_examples
        app_context := st.app_context } := by
    unfold route_message
    simp only [hlast]
    rw [if_neg hne]
  simp only [graphInvoke, hroute, applyUpdate]
  rcases resolveTask_mem (normalizeIntent rc) with ht | ht | ht <;> rw [ht]
  · have hrf : router_function
        { messages := st.messages ++ st.messages
          guideline_draft := st.guideline_draft
          current_task := "guidelines".data
          posts_examples := st.posts_examples
          app_context := st.app_context } = some "guidelines".data := by
      unfold router_function
      simp only [hgl2]
      rw [if_neg hne]
      simp
    simp only [hrf]
    unfold runHandler
    rw [if_pos rfl]
    unfold process_guidelines
    simp only [hgl2]
  · have hrf : router_function
        { messages := st.messages ++ st.messages
          guideline_draft := st.guideline_draft
          current_task := "app_info".data
          posts_examples := st.posts_examples
          app_context := st.app_context } = some "app_info".data := by
      unfold router_function
      simp only [hgl2]
      rw [if_neg hne]
      simp
    simp only [hrf]
    unfold runHandler
    rw [if_neg (by decide), if_pos rfl]
    unfold process_app_info
    simp only [hgl2]
  · have hd : st.guideline_draft ≠ [] := hp ht
    have hrf : router_function
        { messages := st.messages ++ st.messages
          guideline_draft := st.guideline_draft
          current_task := "post_examples".data
          posts_examples := st.posts_examples
          app_context := st.app_context } = some "post_examples".data := by
      unfold router_function
      simp only [hgl2]
      rw [if_neg hne]
      simp
    simp only [hrf]
    unfold runHandler
    rw [if_neg (by decide), if_neg (by decide)]
    unfold process_post_examples
    simp only [hgl2]
    rw [if_neg hd]

/-- C8 counterexample: at a concrete turn with a failing app-info handler
call (empty store, empty prior thread history, user message `hi`), the
caller does get the apology with the database untouched, but the persisted
session state is NOT left exactly as before the turn: the thread's
committed history after the turn is `[hi, hi]` — the turn's user message,
re-appended by the router step's commit — where the pre-turn history was
empty, so a partial history update is stored. -/
theorem handler_failure_partial_history_cex :
    (process_message_ckpt (Except.ok (ContentVal.str "app_info".data))
      (fun _ => Except.error "boom".data) [] [] "s".data "hi".data).2 =
      Except.ok ([], apologyReply "boom".data) ∧
    (process_message_ckpt (Except.ok (ContentVal.str "app_info".data))
      (fun _ => Except.error "boom".data) [] [] "s".data "hi".data).1 =
      [humanMsg "hi".data, humanMsg "hi".data] ∧
    [humanMsg "hi".data, humanMsg "hi".data] ≠ ([] : List Msg) :=
  ⟨rfl, rfl, by decide⟩

/-- C8 amended: when the dispatched handler's model call raises, the caller
receives the apology reply rather than an exception, and the
database-persisted fields (draft, examples, task, context) are left exactly
as before — `save_session_state` is never reached. The checkpointer-held
history, however, is not restored: the input application and the completed
router step are committed before the handler raises, so the thread's stored
history after the failed turn is the pre-turn history plus the new user
message, committed twice over by the router's full-list update under the
`operator.add` reducer. (The hypothesis excludes the post-examples
empty-draft short circuit, in which no handler model call happens.) -/
theorem handler_failure_partial_history (rc : ContentVal) (e : Str) (db : DB)
    (chk : List Msg) (sid message : Str)
    (hp : resolveTask (normalizeIntent rc) = "post_examples".data →
      (sessionOf db sid).guideline_draft ≠ []) :
    process_message_ckpt (Except.ok rc) (fun _ => Except.error e) db chk sid message =
      ((chk ++ [humanMsg message]) ++ (chk ++ [humanMsg message]),
        Except.ok (db, apologyReply e)) := by
  unfold process_message_ckpt
  dsimp only
  have h25 : (25 : Nat) = 24 + 1 := rfl
  rw [h25, graphInvoke_handler_error rc e _ (humanMsg message) 24
    (List.getLast?_concat _) rfl hp]

/-- Witness for the amended C8: with one prior thread message and a failing
guidelines handler call, the store is untouched, the reply is the apology,
and the committed thread history carries the turn's message writes. -/
theorem handler_failure_partial_history_witness :
    process_message_ckpt (Except.ok (ContentVal.str "guidelines".data))
      (fun _ => Except.error "x".data) [] [humanMsg "a".data] "s".data "q".data =
      (([humanMsg "a".data] ++ [humanMsg "q".data]) ++
        ([humanMsg "a".data] ++ [humanMsg "q".data]),
        Except.ok ([], apologyReply "x".data)) :=
  handler_failure_partial_history (ContentVal.str "guidelines".data) "x".data []
    [humanMsg "a".data] "s".data "q".data (by decide)

/-- The backwards replace-first-human loop skips a machine-authored block
and rewrites the first human message it meets. -/
theorem augmentFirstHumanRev_skip_ai (ctx : Str) (l1 : List Msg) (m : Msg) (l2 : List Msg)
    (h1 : ∀ x ∈ l1, x.role = Role.ai) (hm : m.role = Role.human) :
    augmentFirstHumanRev ctx (l1 ++ m :: l2) =
      l1 ++ { role := Role.human, content := ctx ++ m.content } :: l2 := by
  induction l1 with
  | nil => simp [augmentFirstHumanRev, hm]
  | cons a t ih =>
    have ha : a.role = Role.ai := h1 a (by simp)
    have hna : ¬ (a.role = Role.human) := by rw [ha]; decide
    simp only [List.cons_append, augmentFirstHumanRev, List.append_eq]
    rw [if_neg hna, ih (fun x hx => h1 x (by simp [hx]))]

/-- When the messages decompose as `pre ++ m :: post` with `m` human and
`post` all machine-authored, `augmentLastHuman` rewrites exactly `m`. -/
theorem augmentLastHuman_spec (ctx : Str) (pre : List Msg) (m : Msg) (post : List Msg)
    (hm : m.role = Role.human) (hpost : ∀ x ∈ post, x.role = Role.ai) :
    augmentLastHuman ctx (pre ++ m :: post) =
      pre ++ { role := Role.human, content := ctx ++ m.content } :: post := by
  unfold augmentLastHuman
  have hrev : (pre ++ m :: post).reverse = post.reverse ++ m :: pre.reverse := by
    simp [List.reverse_append]
  rw [hrev, augmentFirstHumanRev_skip_ai ctx post.reverse m pre.reverse
    (fun x hx => hpost x (List.mem_reverse.mp hx)) hm]
  simp [List.reverse_append]

/-- C10 counterexample: with an empty draft the guidelines node sends the
messages unaugmented (`if current_draft:` skips the augmentation), so the
claimed for-every-draft-value replacement fails at `draft = ""`. -/
theorem guidelines_augment_empty_draft_cex :
    guidelinesModelMessages stHi = [hMsgHi] ∧
    [hMsgHi] ≠ [humanMsg ("Current guideline draft:\n".data ++ ([] : Str) ++ "\n\n".data
      ++ "hi".data)] :=
  ⟨rfl, by decide⟩

/-- C10 amended: when the draft is NON-EMPTY, the message sequence sent to
the model replaces the last human message with
`"Current guideline draft:\n" ++ draft ++ "\n\n" ++ lastUserMessage`
(with an empty draft the messages are sent unaugmented); the node's
returned update carries only the single machine reply, so the stored
history keeps the original unaugmented user text — the augmentation is
call-scoped only. -/
theorem guidelines_augment_amended (st : AgentState) (pre : List Msg) (m : Msg)
    (post : List Msg) (hd : st.guideline_draft ≠ [])
    (hsplit : st.messages = pre ++ m :: post) (hm : m.role = Role.human)
    (hpost : ∀ x ∈ post, x.role = Role.ai) :
    guidelinesModelMessages st =
      pre ++ humanMsg ("Current guideline draft:\n".data ++ st.guideline_draft
        ++ "\n\n".data ++ m.content) :: post ∧
    ∀ (llm : List Msg → Except Str ContentVal) (r : AgentState),
      process_guidelines llm st = Except.ok r →
      ∃ a : Str, r.messages = [aiMsg a] ∧
        (applyUpdate st r).messages = st.messages ++ [aiMsg a] := by
  constructor
  · unfold guidelinesModelMessages
    rw [if_pos hd, hsplit, augmentLastHuman_spec _ pre m post hm hpost]
    rfl
  · intro llm r hr
    unfold process_guidelines at hr
    cases hlast : st.messages.getLast? with
    | none => simp only [hlast] at hr; exact absurd hr (by simp)
    | some mm =>
      simp only [hlast] at hr
      cases hllm : llm (guidelinesModelMessages st) with
      | error e => simp only [hllm] at hr; exact absurd hr (by simp)
      | ok c =>
        simp only [hllm, Except.ok.injEq] at hr
        subst hr
        exact ⟨contentToStr c GUIDELINES_DEFAULT, rfl, rfl⟩

/-- A state with one machine reply followed by one user message, carrying a
non-empty draft. -/
def stG2 : AgentState :=
  { messages := [{ role := Role.ai, content := "prev".data }, hMsgHi]
    guideline_draft := "D".data
    current_task := "guidelines".data
    posts_examples := []
    app_context := AppContext.emptyCtx }

/-- Witness for the amended C10 at `stG2`. -/
theorem guidelines_augment_amended_witness :
    guidelinesModelMessages stG2 = [aiMsg "prev".data,
      humanMsg ("Current guideline draft:\n".data ++ "D".data ++ "\n\n".data ++ "hi".data)] :=
  (guidelines_augment_amended stG2 [aiMsg "prev".data] hMsgHi []
    (by decide) rfl rfl (by simp)).1

end ContentPlanner
